import Mathlib

/-!
Shallow embedding of `zubbi/scraper/tenant_parser.py` (class `TenantParser`)
and proofs about it.

Modelling conventions:
  * YAML values are modelled by the inductive type `Yaml`; mapping keys are
    modelled as strings (all keys appearing in tenant-configuration files are
    strings), and mappings keep Python dict insertion order as an
    association list.
  * Python runtime errors raised by the parsed code (`KeyError`, `TypeError`,
    `AttributeError`, `IndexError`) are modelled by `PyError`; fallible
    operations return `Except PyError`.
  * `hashlib.sha1(str.encode(name)).hexdigest()` is modelled by a full
    executable SHA-1 over the UTF-8 bytes of the name (`sha1Hex`).
-/

set_option autoImplicit false
set_option maxRecDepth 100000

namespace TenantSources

/-- A YAML value as produced by `yaml.load`: mapping keys are strings,
mappings preserve insertion order (association list). -/
inductive Yaml where
  | nullV
  | bool (b : Bool)
  | int (n : Int)
  | str (s : String)
  | list (items : List Yaml)
  | dict (entries : List (String × Yaml))

mutual

/-- Structural equality of YAML values, modelling Python `==` on the
corresponding parsed objects. -/
def Yaml.beq : Yaml → Yaml → Bool
  | .nullV, .nullV => true
  | .bool a, .bool b => a == b
  | .int a, .int b => a == b
  | .str a, .str b => a == b
  | .list as, .list bs => yamlListBeq as bs
  | .dict as, .dict bs => yamlDictBeq as bs
  | _, _ => false

/-- Elementwise equality of YAML sequences. -/
def yamlListBeq : List Yaml → List Yaml → Bool
  | [], [] => true
  | a :: as, b :: bs => Yaml.beq a b && yamlListBeq as bs
  | _, _ => false

/-- Elementwise equality of YAML mappings (order-sensitive, which is enough
for the keys this component ever compares). -/
def yamlDictBeq : List (String × Yaml) → List (String × Yaml) → Bool
  | [], [] => true
  | (k, v) :: as, (k2, v2) :: bs => k == k2 && Yaml.beq v v2 && yamlDictBeq as bs
  | _, _ => false

end

/-- Python runtime errors that the parsed code can raise. -/
inductive PyError where
  | keyError (k : String)
  | typeError
  | attributeError
  | indexError
deriving DecidableEq

/-- First match of a key in a YAML mapping (Python dict lookup). -/
def lookupStr : List (String × Yaml) → String → Option Yaml
  | [], _ => none
  | (k0, v) :: rest, k => if k0 == k then some v else lookupStr rest k

/-- Python `d[k] = v` on a dict: replace the value in place if the key
exists, otherwise append the new key at the end (insertion order). -/
def setKey : List (String × Yaml) → String → Yaml → List (String × Yaml)
  | [], k, v => [(k, v)]
  | (k0, v0) :: rest, k, v =>
    if k0 == k then (k, v) :: rest else (k0, v0) :: setKey rest k v

/-- Python subscript `y[k]` with a string key: `KeyError` when the key is
missing from a dict, `TypeError` when the value is not subscriptable by a
string. -/
def getItem (y : Yaml) (k : String) : Except PyError Yaml :=
  match y with
  | .dict es =>
    match lookupStr es k with
    | some v => .ok v
    | none => .error (.keyError k)
  | _ => .error .typeError

/-- Python `y.get(k)` (no default): `None` when the key is missing,
`AttributeError` when `y` is not a dict. -/
def dictGet (y : Yaml) (k : String) : Except PyError Yaml :=
  match y with
  | .dict es => .ok ((lookupStr es k).getD .nullV)
  | _ => .error .attributeError

/-- Python `y.items()`: the entry list of a dict, `AttributeError` otherwise. -/
def itemsOf (y : Yaml) : Except PyError (List (String × Yaml)) :=
  match y with
  | .dict es => .ok es
  | _ => .error .attributeError

/-- Python iteration `for x in y`: list elements, dict keys, or the
characters of a string; `TypeError` for non-iterables. -/
def iterOf (y : Yaml) : Except PyError (List Yaml) :=
  match y with
  | .list xs => .ok xs
  | .dict es => .ok (es.map (fun p => Yaml.str p.1))
  | .str s => .ok (s.toList.map (fun c => Yaml.str (String.mk [c])))
  | _ => .error .typeError

/-- Python `str.encode(y)` requires a `str` value (`TypeError` otherwise);
this extracts the underlying string. -/
def asString (y : Yaml) : Except PyError String :=
  match y with
  | .str s => .ok s
  | _ => .error .typeError

/-- Python truthiness of a YAML value (`if not x`). -/
def Yaml.isTruthy : Yaml → Bool
  | .nullV => false
  | .bool b => b
  | .int n => n != 0
  | .str s => s != ""
  | .list xs => !xs.isEmpty
  | .dict es => !es.isEmpty

/-- Whether the first list is a prefix of the second (by `==` on elements). -/
def listStartsWith : List Char → List Char → Bool
  | [], _ => true
  | _ :: _, [] => false
  | a :: as, b :: bs => a == b && listStartsWith as bs

/-- Whether the first list occurs contiguously inside the second
(Python `sub in s` on strings). -/
def listContainsSeq (pat : List Char) : List Char → Bool
  | [] => pat.isEmpty
  | b :: bs => listStartsWith pat (b :: bs) || listContainsSeq pat bs

/-- Python `needle not in container` for a string needle: list membership,
substring test on strings, key membership on dicts, `TypeError` otherwise. -/
def pyNotIn (needle : String) (container : Yaml) : Except PyError Bool :=
  match container with
  | .list xs => .ok (!(xs.any (fun x => Yaml.beq x (.str needle))))
  | .str s => .ok (!(listContainsSeq needle.toList s.toList))
  | .dict es => .ok (!(es.any (fun p => p.1 == needle)))
  | _ => .error .typeError

/-- UTF-8 encoding of a single character (Python `str.encode` uses UTF-8). -/
def utf8EncodeChar (c : Char) : List Nat :=
  let n := c.toNat
  if n < 128 then [n]
  else if n < 2048 then [192 + n / 64, 128 + n % 64]
  else if n < 65536 then [224 + n / 4096, 128 + n / 64 % 64, 128 + n % 64]
  else [240 + n / 262144, 128 + n / 4096 % 64, 128 + n / 64 % 64, 128 + n % 64]

/-- UTF-8 bytes of a string, modelling Python `str.encode(s)`. -/
def strBytes (s : String) : List Nat :=
  (s.data.map utf8EncodeChar).flatten

/-- 32-bit left rotation on a `Nat` below `2 ^ 32`. -/
def rotl32 (n : Nat) (x : Nat) : Nat :=
  ((x <<< n) ||| (x >>> (32 - n))) % 4294967296

/-- SHA-1 message padding: `0x80`, zeros to 56 mod 64, then the 64-bit
big-endian bit length. -/
def sha1Pad (msg : List Nat) : List Nat :=
  let len := msg.length
  let k := (119 - len % 64) % 64
  let bitLen := len * 8
  msg ++ [128] ++ List.replicate k 0 ++
    [bitLen / 72057594037927936 % 256, bitLen / 281474976710656 % 256,
     bitLen / 1099511627776 % 256, bitLen / 4294967296 % 256,
     bitLen / 16777216 % 256, bitLen / 65536 % 256,
     bitLen / 256 % 256, bitLen % 256]

/-- Split a byte list into 64-byte chunks, with a step budget that each
64-byte drop consumes from (the budget `l.length` is always enough). -/
def chunksAux : Nat → List Nat → List (List Nat)
  | 0, _ => []
  | _, [] => []
  | fuel + 1, a :: rest => (a :: rest).take 64 :: chunksAux fuel ((a :: rest).drop 64)

/-- Split a byte list into 64-byte chunks. -/
def chunks64 (l : List Nat) : List (List Nat) :=
  chunksAux l.length l

/-- Big-endian 32-bit words of a chunk. -/
def toWords : List Nat → List Nat
  | a :: b :: c :: d :: rest => (a * 16777216 + b * 65536 + c * 256 + d) :: toWords rest
  | _ => []

/-- Extend the 16-word schedule by `k` further words
(`w[i] = rotl1 (w[i-3] xor w[i-8] xor w[i-14] xor w[i-16])`). -/
def extendSchedule (w : List Nat) : Nat → List Nat
  | 0 => w
  | k + 1 =>
    let n := w.length
    let x := rotl32 1 ((w.getD (n - 3) 0) ^^^ (w.getD (n - 8) 0) ^^^
      (w.getD (n - 14) 0) ^^^ (w.getD (n - 16) 0))
    extendSchedule (w ++ [x]) k

/-- The SHA-1 round function and constant for round `i`. -/
def sha1FK (i b c d : Nat) : Nat × Nat :=
  if i < 20 then ((b &&& c) ||| ((b ^^^ 4294967295) &&& d), 1518500249)
  else if i < 40 then (b ^^^ c ^^^ d, 1859775393)
  else if i < 60 then ((b &&& c) ||| (b &&& d) ||| (c &&& d), 2400959708)
  else (b ^^^ c ^^^ d, 3395469782)

/-- The 80 SHA-1 rounds over the schedule, starting at round index `i`. -/
def sha1Rounds : Nat → List Nat → Nat × Nat × Nat × Nat × Nat → Nat × Nat × Nat × Nat × Nat
  | _, [], st => st
  | i, wi :: ws, (a, b, c, d, e) =>
    let fk := sha1FK i b c d
    let temp := (rotl32 5 a + fk.1 + e + fk.2 + wi) % 4294967296
    sha1Rounds (i + 1) ws (temp, a, rotl32 30 b, c, d)

/-- Process one 64-byte chunk, updating the running hash state. -/
def sha1ProcessChunk (h : Nat × Nat × Nat × Nat × Nat) (chunk : List Nat) :
    Nat × Nat × Nat × Nat × Nat :=
  let w := extendSchedule (toWords chunk) 64
  let r := sha1Rounds 0 w h
  ((h.1 + r.1) % 4294967296, (h.2.1 + r.2.1) % 4294967296,
   (h.2.2.1 + r.2.2.1) % 4294967296, (h.2.2.2.1 + r.2.2.2.1) % 4294967296,
   (h.2.2.2.2 + r.2.2.2.2) % 4294967296)

/-- A hexadecimal digit character. -/
def hexDigit (n : Nat) : Char :=
  if n < 10 then Char.ofNat (48 + n) else Char.ofNat (87 + n)

/-- The eight lowercase hex characters of a 32-bit word. -/
def wordHex (w : Nat) : List Char :=
  [hexDigit (w / 268435456 % 16), hexDigit (w / 16777216 % 16),
   hexDigit (w / 1048576 % 16), hexDigit (w / 65536 % 16),
   hexDigit (w / 4096 % 16), hexDigit (w / 256 % 16),
   hexDigit (w / 16 % 16), hexDigit (w % 16)]

/-- `hashlib.sha1(str.encode(s)).hexdigest()`: the 40-character lowercase
hex SHA-1 digest of the UTF-8 bytes of `s`. -/
def sha1Hex (s : String) : String :=
  let st := (chunks64 (sha1Pad (strBytes s))).foldl sha1ProcessChunk
    (1732584193, 4023233417, 2562383102, 271733878, 3285377520)
  String.mk (wordHex st.1 ++ wordHex st.2.1 ++ wordHex st.2.2.1 ++
    wordHex st.2.2.2.1 ++ wordHex st.2.2.2.2)

/-- The normalized tenant record built by `parse()`:
`ZuulTenant(meta=\x7b"id": uuid\x7d)` with `tenant_name` and `scrape_time`
set afterwards. `scrape_time` is the caller-supplied run-wide timestamp,
modelled as an opaque string. -/
structure ZuulTenant where
  id : String
  tenant_name : String
  scrape_time : String
deriving DecidableEq

/-- One value of the repo map: `\x7b"jobs": [...], "roles": [...]\x7d`.
The Python code appends the current *tenant name* (a string) to these
lists. -/
structure RepoTenantEntry where
  jobs : List String
  roles : List String
deriving DecidableEq

/-- `self.repo_map`: a Python dict from project key to entry, in insertion
order. Keys are YAML values because a `ProjectRef` that is neither a string
nor a dict is used as the key unchanged. -/
abbrev RepoMap := List (Yaml × RepoTenantEntry)

/-- First entry of the repo map whose key is `==` to `k`. -/
def lookupRepo : RepoMap → Yaml → Option RepoTenantEntry
  | [], _ => none
  | (k0, ent) :: rest, k => if Yaml.beq k0 k then some ent else lookupRepo rest k

/-- `self.repo_map.setdefault(project_name, \x7b"jobs": [], "roles": []\x7d)`:
the map after the call together with the entry it returns. -/
def setdefaultGet : RepoMap → Yaml → RepoMap × RepoTenantEntry
  | [], k => ([(k, ⟨[], []⟩)], ⟨[], []⟩)
  | (k0, ent) :: rest, k =>
    if Yaml.beq k0 k then ((k0, ent) :: rest, ent)
    else
      let r := setdefaultGet rest k
      ((k0, ent) :: r.1, r.2)

/-- Write back the (mutated) entry for key `k`, keeping its position. -/
def writeEntry : RepoMap → Yaml → RepoTenantEntry → RepoMap
  | [], _, _ => []
  | (k0, ent) :: rest, k, newEnt =>
    if Yaml.beq k0 k then (k0, newEnt) :: rest
    else (k0, ent) :: writeEntry rest k newEnt

/-- `TenantParser._extract_project`: a plain value is its own project name
with an empty exclusion list; for a dict the project name is its first key
and the exclusion list is `project.get("exclude", [])` — looked up in the
project dict itself. An empty dict raises `IndexError`
(`list(project.keys())[0]`). -/
def extract_project (project : Yaml) : Except PyError (Yaml × Yaml) :=
  match project with
  | .dict [] => .error .indexError
  | .dict ((k, v) :: rest) =>
    .ok (.str k, (lookupStr ((k, v) :: rest) "exclude").getD (.list []))
  | other => .ok (other, .list [])

/-- `TenantParser._update_repo_map`: extract the project, `setdefault` the
entry, append the tenant to `jobs` unless `"jobs"` is in the exclusion
list, and append it to `roles`. The returned map reflects all mutations
performed before a raised error (`setdefault` has already run when
`"jobs" not in exclude` raises). -/
def update_repo_map (rm : RepoMap) (project : Yaml) (tenant : String) :
    RepoMap × Option PyError :=
  match extract_project project with
  | .error e => (rm, some e)
  | .ok (pname, exclude) =>
    let sd := setdefaultGet rm pname
    match pyNotIn "jobs" exclude with
    | .error e => (sd.1, some e)
    | .ok b =>
      (writeEntry sd.1 pname
        ⟨sd.2.jobs ++ (if b then [tenant] else []), sd.2.roles ++ [tenant]⟩,
       none)

/-- The inner loop `for project in projects: self._update_repo_map(...)`. -/
def foldProjects (tenant : String) : List Yaml → RepoMap → RepoMap × Option PyError
  | [], rm => (rm, none)
  | p :: ps, rm =>
    match update_repo_map rm p tenant with
    | (rm2, none) => foldProjects tenant ps rm2
    | (rm2, some e) => (rm2, some e)

/-- The outer loop `for project_type, projects in github_source.items()`. -/
def foldItems (tenant : String) : List (String × Yaml) → RepoMap → RepoMap × Option PyError
  | [], rm => (rm, none)
  | (_, projects) :: rest, rm =>
    match iterOf projects with
    | .error e => (rm, some e)
    | .ok ps =>
      match foldProjects tenant ps rm with
      | (rm2, none) => foldItems tenant rest rm2
      | (rm2, some e) => (rm2, some e)

/-- Outcome of processing one tenant-source record inside `parse()`. -/
inductive StepResult where
  | halt
  | err (rm : RepoMap) (e : PyError)
  | next (rm : RepoMap) (t : ZuulTenant)

/-- One iteration of the `for tenant_src in self.sources` loop: extract
`tenant_src["tenant"]["source"]` and `tenant_src["tenant"]["name"]`,
`break` when `source.get("github")` is falsy, otherwise hash the name,
fold the projects into the repo map and produce the `ZuulTenant`. -/
def processRecord (time : String) (rm : RepoMap) (record : Yaml) : StepResult :=
  match getItem record "tenant" with
  | .error e => .err rm e
  | .ok tdict =>
    match getItem tdict "source" with
    | .error e => .err rm e
    | .ok source =>
      match getItem tdict "name" with
      | .error e => .err rm e
      | .ok nameY =>
        match dictGet source "github" with
        | .error e => .err rm e
        | .ok github =>
          if github.isTruthy then
            match asString nameY with
            | .error e => .err rm e
            | .ok name =>
              match itemsOf github with
              | .error e => .err rm e
              | .ok items =>
                match foldItems name items rm with
                | (rm2, some e) => .err rm2 e
                | (rm2, none) => .next rm2 ⟨sha1Hex name, name, time⟩
          else .halt

/-- Result of running `parse()` on a record sequence: `done` falls off the
end of the loop, `halted` leaves it via `break`, `raised` propagates a
Python error (the accumulators show the state at the raise). -/
inductive ParseOutcome where
  | done (rm : RepoMap) (ts : List ZuulTenant)
  | halted (rm : RepoMap) (ts : List ZuulTenant)
  | raised (rm : RepoMap) (ts : List ZuulTenant) (e : PyError)

/-- The `parse()` loop over the remaining records, with the current
accumulators. -/
def parseFold (time : String) : List Yaml → RepoMap → List ZuulTenant → ParseOutcome
  | [], rm, ts => .done rm ts
  | record :: rest, rm, ts =>
    match processRecord time rm record with
    | .halt => .halted rm ts
    | .err rm2 e => .raised rm2 ts e
    | .next rm2 t => parseFold time rest rm2 (ts ++ [t])

/-- `TenantParser.parse()`: starting from the empty accumulators, either
the returned pair `(repo_map, tenants)` or the propagated error. -/
def tenant_parse (time : String) (sources : List Yaml) :
    Except PyError (RepoMap × List ZuulTenant) :=
  match parseFold time sources [] [] with
  | .done rm ts => .ok (rm, ts)
  | .halted rm ts => .ok (rm, ts)
  | .raised _ _ e => .error e

/-- The repo-map accumulator of an outcome. -/
def outRepoMap : ParseOutcome → RepoMap
  | .done rm _ => rm
  | .halted rm _ => rm
  | .raised rm _ _ => rm

/-- The tenant-list accumulator of an outcome. -/
def outTenants : ParseOutcome → List ZuulTenant
  | .done _ ts => ts
  | .halted _ ts => ts
  | .raised _ ts _ => ts

/-- The repository-checkout capability consumed by
`_load_tenant_sources_from_repo`: a `repo_name` for diagnostics,
`list_directory` (the keys of the returned mapping, or a `CheckoutError`
message) and `check_out_file` (file contents, or a `CheckoutError`
message). -/
structure SourcesRepo where
  repo_name : String
  list_directory : String → Except String (List String)
  check_out_file : String → Except String String

/-- An error escaping `_load_tenant_sources_from_repo`: either the
`ScraperConfigurationError` raised when `tenants/` is missing, or an
uncaught Python error from the merge step. -/
inductive LoadError where
  | configError (msg : String)
  | pyErr (e : PyError)
deriving DecidableEq

/-- `os.path.join(a, b, c)` for plain relative components. -/
def pathJoin3 (a b c : String) : String :=
  a ++ "/" ++ b ++ "/" ++ c

/-- Scan for `.format` placeholders (an open brace directly followed by a
close brace) and substitute the arguments in order. Templates with more
placeholders than arguments (an `IndexError` in Python) do not occur here;
such a placeholder is kept as it is. -/
def pyFormatChars : List Char → List String → List Char
  | [], _ => []
  | [c], _ => [c]
  | c1 :: c2 :: rest, args =>
    if c1 = Char.ofNat 123 && c2 = Char.ofNat 125 then
      match args with
      | a :: as => a.toList ++ pyFormatChars rest as
      | [] => c1 :: c2 :: pyFormatChars rest []
    else c1 :: pyFormatChars (c2 :: rest) args

/-- Python `template.format(arg)`: each `"\x7b\x7d"` placeholder is replaced
by the next argument; surplus arguments are ignored, and printf-style
`"%s"` markers are *not* placeholders and stay as they are. -/
def pyFormat (template : String) (args : List String) : String :=
  String.mk (pyFormatChars template.toList args)

/-- The literal format string of the `ScraperConfigurationError` raised when
listing `tenants/` fails (note the printf-style `%s` marker, on which
`.format` is called). -/
def configErrorTemplate : String :=
  "Cannot load tenant sources. Repo \x27%s\x27 does not contain a \x27tenants\x27 folder"

/-- The loop body list of `_load_tenant_sources_from_repo`: for each tenant
directory check out `sources.yaml` then `settings.yaml` (a `CheckoutError`
on either skips that tenant), parse the settings, wrap them under
`"tenant"` and inject the parsed sources under `"source"` (a `TypeError`
if the parsed settings are not a mapping — that error is not caught). -/
def loadTenantList (yload : String → Yaml) (repo : SourcesRepo) :
    List String → Except LoadError (List Yaml)
  | [] => .ok []
  | t :: rest =>
    match repo.check_out_file (pathJoin3 "tenants" t "sources.yaml") with
    | .error _ => loadTenantList yload repo rest
    | .ok sourcesYaml =>
      match repo.check_out_file (pathJoin3 "tenants" t "settings.yaml") with
      | .error _ => loadTenantList yload repo rest
      | .ok settingsYaml =>
        match yload settingsYaml with
        | .dict es =>
          match loadTenantList yload repo rest with
          | .error e => .error e
          | .ok others =>
            .ok (Yaml.dict [("tenant", Yaml.dict (setKey es "source" (yload sourcesYaml)))] :: others)
        | _ => .error (.pyErr .typeError)

/-- `TenantParser._load_tenant_sources_from_repo`, with `yaml.load`
abstracted as `yload`: list the `tenants` directory (raising a
`ScraperConfigurationError` built with `.format` on failure) and collect
the per-tenant records. -/
def load_tenant_sources_from_repo (yload : String → Yaml) (repo : SourcesRepo) :
    Except LoadError (List Yaml) :=
  match repo.list_directory "tenants" with
  | .error _ => .error (.configError (pyFormat configErrorTemplate [repo.repo_name]))
  | .ok names => loadTenantList yload repo names

/-- The record `_load_tenant_sources_from_repo` appends for one tenant
directory, when it appends one: both files must check out and the settings
must parse to a mapping. -/
def tenantRecordOf (yload : String → Yaml) (repo : SourcesRepo) (t : String) :
    Option Yaml :=
  match repo.check_out_file (pathJoin3 "tenants" t "sources.yaml") with
  | .error _ => none
  | .ok sourcesYaml =>
    match repo.check_out_file (pathJoin3 "tenants" t "settings.yaml") with
    | .error _ => none
    | .ok settingsYaml =>
      match yload settingsYaml with
      | .dict es =>
        some (Yaml.dict [("tenant", Yaml.dict (setKey es "source" (yload sourcesYaml)))])
      | _ => none

/-- A well-formed tenant-source record for tenant `n` whose github source
lists `projects` under `config-project`. -/
def sampleRecord (n : String) (projects : List Yaml) : Yaml :=
  Yaml.dict [("tenant", Yaml.dict [("name", Yaml.str n),
    ("source", Yaml.dict [("github", Yaml.dict [("config-project", Yaml.list projects)])])])]

/-- The record during whose folding a lookup of the key `"tenant"`,
`"source"` or `"name"` raises `e0` (one of the malformed-record shapes of
the spec). -/
def missingKeyErr (record : Yaml) (e0 : PyError) : Prop :=
  getItem record "tenant" = Except.error e0 ∨
  (∃ td, getItem record "tenant" = Except.ok td ∧
    (getItem td "source" = Except.error e0 ∨
     (∃ src, getItem td "source" = Except.ok src ∧
       getItem td "name" = Except.error e0)))

/-- Splitting the `parse()` loop at a list append: the second half runs only
when the first half falls off the end of the loop. -/
theorem parseFold_append (time : String) (xs ys : List Yaml) (rm : RepoMap)
    (ts : List ZuulTenant) :
    parseFold time (xs ++ ys) rm ts =
      match parseFold time xs rm ts with
      | .done rm2 ts2 => parseFold time ys rm2 ts2
      | .halted rm2 ts2 => .halted rm2 ts2
      | .raised rm2 ts2 e => .raised rm2 ts2 e := by
  induction xs generalizing rm ts with
  | nil => simp [parseFold]
  | cons r rest ih =>
    simp only [List.cons_append, parseFold]
    cases processRecord time rm r <;> simp [ih]

/-- Claim C1, counterexample: for the ProjectRef
`\x7b"repo-b": \x7b"exclude": ["jobs"]\x7d\x7d` the code appends the tenant
to the entry's `jobs` sequence as well (the claim says it must not): the
code looks `"exclude"` up in the outer project mapping, where it is absent,
so the exclusion list defaults to empty. -/
theorem c1_counterexample :
    lookupRepo
      (outRepoMap (parseFold "time-0"
        [sampleRecord "t1"
          [Yaml.dict [("repo-b", Yaml.dict [("exclude", Yaml.list [Yaml.str "jobs"])])]]]
        [] []))
      (Yaml.str "repo-b") = some ⟨["t1"], ["t1"]⟩ := by
  rfl

/-- Claim C2, counterexample: the values appended to a repository entry's
`jobs` and `roles` are not the normalized Tenant records. Two runs that
differ only in `scrape_time` produce different tenant lists but identical
repo maps, and the entry holds the bare tenant-name string. -/
theorem c2_counterexample :
    outRepoMap (parseFold "time-1" [sampleRecord "t1" [Yaml.str "repo-c"]] [] []) =
      outRepoMap (parseFold "time-2" [sampleRecord "t1" [Yaml.str "repo-c"]] [] []) ∧
    outTenants (parseFold "time-1" [sampleRecord "t1" [Yaml.str "repo-c"]] [] []) ≠
      outTenants (parseFold "time-2" [sampleRecord "t1" [Yaml.str "repo-c"]] [] []) ∧
    lookupRepo (outRepoMap (parseFold "time-1" [sampleRecord "t1" [Yaml.str "repo-c"]] [] []))
      (Yaml.str "repo-c") = some ⟨["t1"], ["t1"]⟩ := by
  refine ⟨rfl, ?_, rfl⟩
  decide

/-- Claim C6: the repo-map entry for a repository is created lazily with
empty `jobs`/`roles` and appends keep processing order with duplicates
allowed: two tenants referencing `"repo-c"` yield `jobs` and `roles` of
exactly two names each, in processing order; an unreferenced repository has
no entry; the tenant list keeps the same order. -/
theorem c6_theorem (t1 t2 time : String) :
    lookupRepo
      (outRepoMap (parseFold time
        [sampleRecord t1 [Yaml.str "repo-c"], sampleRecord t2 [Yaml.str "repo-c"]] [] []))
      (Yaml.str "repo-c") = some ⟨[t1, t2], [t1, t2]⟩ ∧
    lookupRepo
      (outRepoMap (parseFold time
        [sampleRecord t1 [Yaml.str "repo-c"], sampleRecord t2 [Yaml.str "repo-c"]] [] []))
      (Yaml.str "repo-d") = none ∧
    (outTenants (parseFold time
        [sampleRecord t1 [Yaml.str "repo-c"], sampleRecord t2 [Yaml.str "repo-c"]] [] [])).map
      ZuulTenant.tenant_name = [t1, t2] := by
  refine ⟨rfl, rfl, rfl⟩

/-- Claim C10: the early exit of `parse()` triggers for any falsy value
under the `"github"` key, not only for a missing key: whenever
`source.get("github")` yields a falsy value (`None`, an empty mapping, …),
the loop breaks and the accumulated results are returned with no record
after it processed. -/
theorem c10_theorem (time : String) (post : List Yaml) (bad tdict source nameY g : Yaml)
    (h1 : getItem bad "tenant" = Except.ok tdict)
    (h2 : getItem tdict "source" = Except.ok source)
    (h3 : getItem tdict "name" = Except.ok nameY)
    (h4 : dictGet source "github" = Except.ok g)
    (h5 : g.isTruthy = false)
    (rm : RepoMap) (ts : List ZuulTenant) :
    parseFold time (bad :: post) rm ts = .halted rm ts := by
  simp [parseFold, processRecord, h1, h2, h3, h4, h5]

/-- Claim C10, witness: a record whose source maps `"github"` to an empty
mapping halts processing immediately. -/
theorem c10_witness :
    parseFold "T"
      [Yaml.dict [("tenant", Yaml.dict [("name", Yaml.str "x"),
        ("source", Yaml.dict [("github", Yaml.dict [])])])],
       sampleRecord "late" [Yaml.str "r"]] [] [] = .halted [] [] :=
  c10_theorem "T" [sampleRecord "late" [Yaml.str "r"]]
    (Yaml.dict [("tenant", Yaml.dict [("name", Yaml.str "x"),
      ("source", Yaml.dict [("github", Yaml.dict [])])])])
    (Yaml.dict [("name", Yaml.str "x"), ("source", Yaml.dict [("github", Yaml.dict [])])])
    (Yaml.dict [("github", Yaml.dict [])]) (Yaml.str "x") (Yaml.dict [])
    rfl rfl rfl rfl rfl [] []

/-- Claim C3: when a record's source object lacks the `"github"` key,
`parse()` stops at that record and returns exactly the accumulators built
from the records strictly before it; the records after it contribute
nothing, whatever they contain. -/
theorem c3_theorem (time : String) (pre post : List Yaml) (bad tdict source nameY : Yaml)
    (es : List (String × Yaml))
    (h1 : getItem bad "tenant" = Except.ok tdict)
    (h2 : getItem tdict "source" = Except.ok source)
    (h3 : getItem tdict "name" = Except.ok nameY)
    (h4 : source = Yaml.dict es)
    (h5 : lookupStr es "github" = none)
    (rm : RepoMap) (ts : List ZuulTenant) (rmA : RepoMap) (tsA : List ZuulTenant)
    (hpre : parseFold time pre rm ts = .done rmA tsA) :
    parseFold time (pre ++ bad :: post) rm ts = .halted rmA tsA := by
  rw [parseFold_append, hpre]
  simp [parseFold, processRecord, h1, h2, h3, h4, dictGet, h5, Yaml.isTruthy]

/-- Claim C3, witness: a well-formed record, then a record without a
`"github"` source, then another well-formed record: the result holds only
the first tenant. -/
theorem c3_witness :
    parseFold "T"
      ([sampleRecord "a" [Yaml.str "repo-a"]] ++
        Yaml.dict [("tenant", Yaml.dict [("name", Yaml.str "x"),
          ("source", Yaml.dict [("gerrit", Yaml.dict [])])])] ::
        [sampleRecord "c" [Yaml.str "repo-z"]]) [] [] =
      .halted [(Yaml.str "repo-a", ⟨["a"], ["a"]⟩)]
        [⟨sha1Hex "a", "a", "T"⟩] :=
  c3_theorem "T" [sampleRecord "a" [Yaml.str "repo-a"]]
    [sampleRecord "c" [Yaml.str "repo-z"]]
    (Yaml.dict [("tenant", Yaml.dict [("name", Yaml.str "x"),
      ("source", Yaml.dict [("gerrit", Yaml.dict [])])])])
    (Yaml.dict [("name", Yaml.str "x"), ("source", Yaml.dict [("gerrit", Yaml.dict [])])])
    (Yaml.dict [("gerrit", Yaml.dict [])]) (Yaml.str "x")
    [("gerrit", Yaml.dict [])] rfl rfl rfl rfl rfl
    [] [] [(Yaml.str "repo-a", ⟨["a"], ["a"]⟩)] [⟨sha1Hex "a", "a", "T"⟩] rfl

/-- Claim C8: a record that raises while its expected keys are extracted
(`"tenant"`, `"source"` or `"name"` missing) is not caught inside
`parse()`: the loop stops in the raising state, later records are never
processed, and the caller observes the error — the record is not skipped. -/
theorem c8_theorem (time : String) (pre post : List Yaml) (bad : Yaml) (e0 : PyError)
    (hbad : missingKeyErr bad e0)
    (rmA : RepoMap) (tsA : List ZuulTenant)
    (hpre : parseFold time pre [] [] = .done rmA tsA) :
    parseFold time (pre ++ bad :: post) [] [] = .raised rmA tsA e0 ∧
    tenant_parse time (pre ++ bad :: post) = .error e0 := by
  have hstep : ∀ rm0 : RepoMap, processRecord time rm0 bad = .err rm0 e0 := by
    intro rm0
    rcases hbad with h1 | ⟨td, h1, h2 | ⟨src, h2, h3⟩⟩
    · simp [processRecord, h1]
    · simp [processRecord, h1, h2]
    · simp [processRecord, h1, h2, h3]
  have hrun : parseFold time (pre ++ bad :: post) [] [] = .raised rmA tsA e0 := by
    rw [parseFold_append, hpre]
    simp [parseFold, hstep]
  exact ⟨hrun, by simp [tenant_parse, hrun]⟩

/-- Claim C8, witness: an empty record after a good one aborts the whole
call with `KeyError("tenant")`. -/
theorem c8_witness :
    parseFold "T" ([sampleRecord "a" [Yaml.str "repo-a"]] ++ Yaml.dict [] :: []) [] [] =
      .raised [(Yaml.str "repo-a", ⟨["a"], ["a"]⟩)] [⟨sha1Hex "a", "a", "T"⟩]
        (.keyError "tenant") ∧
    tenant_parse "T" ([sampleRecord "a" [Yaml.str "repo-a"]] ++ Yaml.dict [] :: []) =
      .error (.keyError "tenant") :=
  c8_theorem "T" [sampleRecord "a" [Yaml.str "repo-a"]] [] (Yaml.dict [])
    (.keyError "tenant") (Or.inl rfl)
    [(Yaml.str "repo-a", ⟨["a"], ["a"]⟩)] [⟨sha1Hex "a", "a", "T"⟩] rfl

/-- Claim C7: the tenant identifier
`hashlib.sha1(str.encode(name)).hexdigest()` is a fixed-length (40
hex characters) content-derived hash, deterministic and stable across
repeated calls with the same name; differing names give differing
identifiers (collision-freedom in the claim's practical sense, witnessed
here on concrete distinct names). -/
theorem c7_theorem :
    (∀ name : String, (sha1Hex name).length = 40) ∧
    (∀ n1 n2 : String, n1 = n2 → sha1Hex n1 = sha1Hex n2) ∧
    sha1Hex "tenant-a" ≠ sha1Hex "tenant-b" := by
  refine ⟨?_, ?_, ?_⟩
  · intro name
    simp [sha1Hex, String.length, wordHex]
  · intro n1 n2 h
    rw [h]
  · decide

/-- Claim C7, witness: the identifier of `"tenant-a"` is stable across
repeated derivations. -/
theorem c7_witness : sha1Hex "tenant-a" = sha1Hex "tenant-a" :=
  c7_theorem.2.1 "tenant-a" "tenant-a" rfl

/-- Claim C4 evaluated at a failing input: for a repository handle named
`"my-repo"` whose directory listing raises a checkout error, loading
raises the configuration error, but its message is the format string
unchanged — `.format` finds no `\x7b\x7d` placeholder, the `%s` marker
stays literal, and the repository name does not occur in the message. -/
theorem c4_theorem :
    (∀ yload : String → Yaml,
      load_tenant_sources_from_repo yload
        ⟨"my-repo", fun _ => .error "checkout failed", fun _ => .error "checkout failed"⟩ =
        .error (.configError configErrorTemplate)) ∧
    pyFormat configErrorTemplate ["my-repo"] = configErrorTemplate ∧
    listContainsSeq "my-repo".toList configErrorTemplate.toList = false := by
  refine ⟨fun _ => rfl, rfl, ?_⟩
  decide

/-- The current entry for repository name `a`, or a fresh empty entry. -/
def entryOf (rm : RepoMap) (a : String) : RepoTenantEntry :=
  (lookupRepo rm (Yaml.str a)).getD ⟨[], []⟩

/-- YAML equality is reflexive on string keys. -/
theorem yamlBeq_str_self (a : String) : Yaml.beq (Yaml.str a) (Yaml.str a) = true := by
  simp [Yaml.beq]

/-- After `setdefault` and the write-back of the entry for key `a`, looking
`a` up finds exactly the written entry. -/
theorem lookupRepo_write_setdefault (rm : RepoMap) (a : String) (ent : RepoTenantEntry) :
    lookupRepo (writeEntry (setdefaultGet rm (Yaml.str a)).1 (Yaml.str a) ent)
      (Yaml.str a) = some ent := by
  induction rm with
  | nil => simp [setdefaultGet, writeEntry, lookupRepo, yamlBeq_str_self]
  | cons p rest ih =>
    obtain ⟨k0, e0⟩ := p
    by_cases h : Yaml.beq k0 (Yaml.str a) = true
    · simp [setdefaultGet, h, writeEntry, lookupRepo]
    · simp [setdefaultGet, h, writeEntry, lookupRepo, ih]

/-- The entry returned by `setdefault` is the existing one, or an empty
entry when the key was absent. -/
theorem setdefaultGet_snd (rm : RepoMap) (k : Yaml) :
    (setdefaultGet rm k).2 = (lookupRepo rm k).getD ⟨[], []⟩ := by
  induction rm with
  | nil => simp [setdefaultGet, lookupRepo]
  | cons p rest ih =>
    obtain ⟨k0, e0⟩ := p
    by_cases h : Yaml.beq k0 k = true
    · simp [setdefaultGet, h, lookupRepo]
    · simp [setdefaultGet, h, lookupRepo, ih]

/-- `_update_repo_map` in the non-raising case, written through the entry
it stores for the extracted string key. -/
theorem update_repo_map_strkey (rm : RepoMap) (t a : String) (excl : Yaml) (b : Bool)
    (project : Yaml)
    (hex : extract_project project = .ok (Yaml.str a, excl))
    (hni : pyNotIn "jobs" excl = .ok b) :
    update_repo_map rm project t =
      (writeEntry (setdefaultGet rm (Yaml.str a)).1 (Yaml.str a)
        ⟨(entryOf rm a).jobs ++ (if b then [t] else []),
         (entryOf rm a).roles ++ [t]⟩, none) := by
  simp [update_repo_map, hex, hni, setdefaultGet_snd, entryOf]

/-- Claim C1, amended: the exclusion list of a ProjectRef mapping is read
from the *top level* of the mapping (`project.get("exclude", [])`), not
from the object nested under the repository name. Hence for
`\x7b repo: \x7b"exclude": ["jobs"]\x7d\x7d` (with `repo ≠ "exclude"`) the
tenant is appended to both `jobs` and `roles`; a top-level `"exclude"
: ["jobs"]` key suppresses only the `jobs` append, and the exclusion list
is never consulted for `roles`, which always receives the tenant. -/
theorem c1_amended_theorem :
    (∀ (rm : RepoMap) (t repo : String) (inner : Yaml), repo ≠ "exclude" →
      lookupRepo (update_repo_map rm (Yaml.dict [(repo, inner)]) t).1 (Yaml.str repo) =
        some ⟨(entryOf rm repo).jobs ++ [t], (entryOf rm repo).roles ++ [t]⟩ ∧
      (update_repo_map rm (Yaml.dict [(repo, inner)]) t).2 = none) ∧
    (∀ (rm : RepoMap) (t repo : String) (v : Yaml), repo ≠ "exclude" →
      lookupRepo (update_repo_map rm
          (Yaml.dict [(repo, v), ("exclude", Yaml.list [Yaml.str "jobs"])]) t).1
        (Yaml.str repo) =
        some ⟨(entryOf rm repo).jobs, (entryOf rm repo).roles ++ [t]⟩ ∧
      (update_repo_map rm
          (Yaml.dict [(repo, v), ("exclude", Yaml.list [Yaml.str "jobs"])]) t).2 = none) := by
  constructor
  · intro rm t repo inner h
    have hx : (repo == "exclude") = false := by
      simp [beq_eq_false_iff_ne, h]
    have hex : extract_project (Yaml.dict [(repo, inner)]) =
        .ok (Yaml.str repo, Yaml.list []) := by
      simp [extract_project, lookupStr, hx]
    have hni : pyNotIn "jobs" (Yaml.list []) = .ok true := by
      simp [pyNotIn]
    rw [update_repo_map_strkey rm t repo (Yaml.list []) true _ hex hni]
    simp [lookupRepo_write_setdefault]
  · intro rm t repo v h
    have hx : (repo == "exclude") = false := by
      simp [beq_eq_false_iff_ne, h]
    have hex : extract_project
        (Yaml.dict [(repo, v), ("exclude", Yaml.list [Yaml.str "jobs"])]) =
        .ok (Yaml.str repo, Yaml.list [Yaml.str "jobs"]) := by
      simp [extract_project, lookupStr, hx]
    have hni : pyNotIn "jobs" (Yaml.list [Yaml.str "jobs"]) = .ok false := by
      simp [pyNotIn, Yaml.beq]
    rw [update_repo_map_strkey rm t repo (Yaml.list [Yaml.str "jobs"]) false _ hex hni]
    simp [lookupRepo_write_setdefault]

/-- Claim C1, witness: for tenant `"t1"` and the nested-exclude ProjectRef
the entry gets the tenant in both sequences; for a top-level exclude only
`roles` receives it. -/
theorem c1_witness :
    lookupRepo (update_repo_map []
        (Yaml.dict [("repo-b", Yaml.dict [("exclude", Yaml.list [Yaml.str "jobs"])])])
        "t1").1 (Yaml.str "repo-b") = some ⟨["t1"], ["t1"]⟩ ∧
    lookupRepo (update_repo_map []
        (Yaml.dict [("repo-b", Yaml.nullV), ("exclude", Yaml.list [Yaml.str "jobs"])])
        "t1").1 (Yaml.str "repo-b") = some ⟨[], ["t1"]⟩ := by
  constructor
  · simpa [entryOf, lookupRepo] using
      (c1_amended_theorem.1 [] "t1" "repo-b"
        (Yaml.dict [("exclude", Yaml.list [Yaml.str "jobs"])]) (by decide)).1
  · simpa [entryOf, lookupRepo] using
      (c1_amended_theorem.2 [] "t1" "repo-b" Yaml.nullV (by decide)).1

/-- The per-tenant loop of the loader collects exactly the records of the
tenants whose two files check out (and parse to a mapping): a checkout
failure skips only that tenant. -/
theorem loadTenantList_eq (yload : String → Yaml) (repo : SourcesRepo)
    (names : List String)
    (hs : ∀ t ∈ names, ∀ src stg : String,
      repo.check_out_file (pathJoin3 "tenants" t "sources.yaml") = .ok src →
      repo.check_out_file (pathJoin3 "tenants" t "settings.yaml") = .ok stg →
      ∃ es, yload stg = Yaml.dict es) :
    loadTenantList yload repo names =
      .ok (names.filterMap (tenantRecordOf yload repo)) := by
  induction names with
  | nil => simp [loadTenantList]
  | cons t rest ih =>
    have hrest : ∀ t2 ∈ rest, ∀ src stg : String,
        repo.check_out_file (pathJoin3 "tenants" t2 "sources.yaml") = .ok src →
        repo.check_out_file (pathJoin3 "tenants" t2 "settings.yaml") = .ok stg →
        ∃ es, yload stg = Yaml.dict es :=
      fun t2 ht2 => hs t2 (List.mem_cons_of_mem _ ht2)
    cases hc1 : repo.check_out_file (pathJoin3 "tenants" t "sources.yaml") with
    | error m => simp [loadTenantList, hc1, tenantRecordOf, ih hrest]
    | ok src =>
      cases hc2 : repo.check_out_file (pathJoin3 "tenants" t "settings.yaml") with
      | error m => simp [loadTenantList, hc1, hc2, tenantRecordOf, ih hrest]
      | ok stg =>
        obtain ⟨es, hes⟩ := hs t (List.mem_cons_self t rest) src stg hc1 hc2
        simp [loadTenantList, hc1, hc2, hes, tenantRecordOf, ih hrest]

/-- Claim C5: in repository mode, a tenant directory with a missing or
unreadable `sources.yaml`/`settings.yaml` is excluded from the result while
every tenant whose files are all present is included, and loading as a
whole succeeds: the result is the `filterMap` of the per-tenant record
builder over the directory listing. -/
theorem c5_theorem (yload : String → Yaml) (repo : SourcesRepo) (names : List String)
    (hl : repo.list_directory "tenants" = .ok names)
    (hs : ∀ t ∈ names, ∀ src stg : String,
      repo.check_out_file (pathJoin3 "tenants" t "sources.yaml") = .ok src →
      repo.check_out_file (pathJoin3 "tenants" t "settings.yaml") = .ok stg →
      ∃ es, yload stg = Yaml.dict es) :
    load_tenant_sources_from_repo yload repo =
      .ok (names.filterMap (tenantRecordOf yload repo)) := by
  simp [load_tenant_sources_from_repo, hl, loadTenantList_eq yload repo names hs]

/-- A fixture checkout: tenant `foo` is missing `sources.yaml`, tenant
`bar` has both files. -/
def fixtureRepo : SourcesRepo :=
  ⟨"fixture-repo",
   fun p => if p = "tenants" then .ok ["foo", "bar"] else .error "no such directory",
   fun p =>
     if p = "tenants/bar/sources.yaml" then .ok "bar-sources"
     else if p = "tenants/bar/settings.yaml" then .ok "bar-settings"
     else if p = "tenants/foo/settings.yaml" then .ok "foo-settings"
     else .error "missing file"⟩

/-- A fixture `yaml.load` for the contents served by `fixtureRepo`. -/
def fixtureYload : String → Yaml :=
  fun s =>
    if s = "bar-settings" then Yaml.dict [("name", Yaml.str "bar")]
    else if s = "bar-sources" then Yaml.dict [("github", Yaml.dict [])]
    else Yaml.nullV

/-- Claim C5, witness: loading `fixtureRepo` succeeds, skips `foo` and
returns exactly the merged record of `bar`. -/
theorem c5_witness :
    load_tenant_sources_from_repo fixtureYload fixtureRepo =
      .ok [Yaml.dict [("tenant", Yaml.dict [("name", Yaml.str "bar"),
        ("source", Yaml.dict [("github", Yaml.dict [])])])]] := by
  have h := c5_theorem fixtureYload fixtureRepo ["foo", "bar"] rfl ?hs
  case hs =>
    intro t ht src stg h1 h2
    rcases List.mem_cons.mp ht with heq | hm
    · subst heq
      simp [fixtureRepo, pathJoin3] at h1
    · rcases List.mem_cons.mp hm with heq | hm2
      · subst heq
        simp [fixtureRepo, pathJoin3] at h2
        exact ⟨[("name", Yaml.str "bar")], by rw [← h2]; rfl⟩
      · simp at hm2
  exact h.trans (by rfl)

/-- The invariant of claim C9: in every entry of the repo map, `jobs` is a
subsequence of `roles`. -/
def rmSub (rm : RepoMap) : Prop :=
  ∀ p ∈ rm, List.Sublist p.2.jobs p.2.roles

/-- A successful lookup returns an entry of the map. -/
theorem lookupRepo_mem (rm : RepoMap) (k : Yaml) (ent : RepoTenantEntry)
    (h : lookupRepo rm k = some ent) : ∃ k0, (k0, ent) ∈ rm := by
  induction rm with
  | nil => simp [lookupRepo] at h
  | cons p rest ih =>
    obtain ⟨k0, e0⟩ := p
    by_cases hb : Yaml.beq k0 k = true
    · simp [lookupRepo, hb] at h
      exact ⟨k0, by simp [h]⟩
    · simp [lookupRepo, hb] at h
      obtain ⟨k1, hk1⟩ := ih h
      exact ⟨k1, List.mem_cons_of_mem _ hk1⟩

/-- `setdefault` preserves the invariant, and the entry it hands out
satisfies it. -/
theorem setdefaultGet_rmSub (rm : RepoMap) (k : Yaml) (h : rmSub rm) :
    rmSub (setdefaultGet rm k).1 ∧
      List.Sublist (setdefaultGet rm k).2.jobs (setdefaultGet rm k).2.roles := by
  induction rm with
  | nil =>
    refine ⟨?_, by simp [setdefaultGet]⟩
    intro p hp
    simp [setdefaultGet] at hp
    simp [hp]
  | cons q rest ih =>
    obtain ⟨k0, e0⟩ := q
    have h0 : List.Sublist e0.jobs e0.roles := h (k0, e0) (List.mem_cons_self _ _)
    have hrest : rmSub rest := fun p hp => h p (List.mem_cons_of_mem _ hp)
    by_cases hb : Yaml.beq k0 k = true
    · exact ⟨by simpa [setdefaultGet, hb] using h, by simpa [setdefaultGet, hb] using h0⟩
    · obtain ⟨ih1, ih2⟩ := ih hrest
      refine ⟨?_, by simpa [setdefaultGet, hb] using ih2⟩
      intro p hp
      simp only [setdefaultGet, hb] at hp
      simp only [Bool.false_eq_true, if_false, List.mem_cons] at hp
      rcases hp with hp | hp
      · simp only [hp]
        exact h0
      · exact ih1 p hp

/-- Writing back an entry that satisfies the invariant preserves it. -/
theorem writeEntry_rmSub (rm : RepoMap) (k : Yaml) (ent : RepoTenantEntry)
    (h : rmSub rm) (hent : List.Sublist ent.jobs ent.roles) :
    rmSub (writeEntry rm k ent) := by
  induction rm with
  | nil => simpa [writeEntry] using h
  | cons q rest ih =>
    obtain ⟨k0, e0⟩ := q
    have h0 : List.Sublist e0.jobs e0.roles := h (k0, e0) (List.mem_cons_self _ _)
    have hrest : rmSub rest := fun p hp => h p (List.mem_cons_of_mem _ hp)
    intro p hp
    by_cases hb : Yaml.beq k0 k = true
    · simp only [writeEntry, hb, if_true, List.mem_cons] at hp
      rcases hp with hp | hp
      · simp [hp, hent]
      · exact hrest p hp
    · simp only [writeEntry, hb, Bool.false_eq_true, if_false, List.mem_cons] at hp
      rcases hp with hp | hp
      · simp [hp, h0]
      · exact ih hrest p hp

/-- `_update_repo_map` preserves the invariant (also when it raises: the
map then shows only the `setdefault` mutation). -/
theorem update_repo_map_rmSub (rm : RepoMap) (project : Yaml) (t : String)
    (h : rmSub rm) : rmSub (update_repo_map rm project t).1 := by
  cases hex : extract_project project with
  | error e => simpa [update_repo_map, hex] using h
  | ok kv =>
    obtain ⟨pname, excl⟩ := kv
    obtain ⟨hsd1, hsd2⟩ := setdefaultGet_rmSub rm pname h
    cases hni : pyNotIn "jobs" excl with
    | error e => simpa [update_repo_map, hex, hni] using hsd1
    | ok b =>
      simp only [update_repo_map, hex, hni]
      refine writeEntry_rmSub _ _ _ hsd1 ?_
      cases b with
      | true =>
        simpa using List.Sublist.append hsd2 (List.Sublist.refl [t])
      | false =>
        simpa using hsd2.trans (List.sublist_append_left _ [t])

/-- The inner project loop preserves the invariant. -/
theorem foldProjects_rmSub (t : String) (ps : List Yaml) (rm : RepoMap)
    (h : rmSub rm) : rmSub (foldProjects t ps rm).1 := by
  induction ps generalizing rm with
  | nil => simpa [foldProjects] using h
  | cons p rest ih =>
    have hup := update_repo_map_rmSub rm p t h
    cases hu : update_repo_map rm p t with
    | mk rm2 oe =>
      rw [hu] at hup
      cases oe with
      | none => simpa [foldProjects, hu] using ih rm2 hup
      | some e => simpa [foldProjects, hu] using hup

/-- The outer item loop preserves the invariant. -/
theorem foldItems_rmSub (t : String) (items : List (String × Yaml)) (rm : RepoMap)
    (h : rmSub rm) : rmSub (foldItems t items rm).1 := by
  induction items generalizing rm with
  | nil => simpa [foldItems] using h
  | cons it rest ih =>
    obtain ⟨ptype, projects⟩ := it
    cases hi : iterOf projects with
    | error e => simpa [foldItems, hi] using h
    | ok ps =>
      have hfp := foldProjects_rmSub t ps rm h
      cases hf : foldProjects t ps rm with
      | mk rm2 oe =>
        rw [hf] at hfp
        cases oe with
        | none => simpa [foldItems, hi, hf] using ih rm2 hfp
        | some e => simpa [foldItems, hi, hf] using hfp

/-- The map carried by any step outcome (with the incoming map for
`halt`, which leaves it untouched). -/
def stepMap (fallback : RepoMap) : StepResult → RepoMap
  | .halt => fallback
  | .err rm _ => rm
  | .next rm _ => rm

/-- Processing one record preserves the invariant, whatever the outcome. -/
theorem processRecord_rmSub (time : String) (rm : RepoMap) (r : Yaml)
    (h : rmSub rm) : rmSub (stepMap rm (processRecord time rm r)) := by
  cases h1 : getItem r "tenant" with
  | error e => simpa [processRecord, h1, stepMap] using h
  | ok tdict =>
    cases h2 : getItem tdict "source" with
    | error e => simpa [processRecord, h1, h2, stepMap] using h
    | ok source =>
      cases h3 : getItem tdict "name" with
      | error e => simpa [processRecord, h1, h2, h3, stepMap] using h
      | ok nameY =>
        cases h4 : dictGet source "github" with
        | error e => simpa [processRecord, h1, h2, h3, h4, stepMap] using h
        | ok github =>
          by_cases h5 : github.isTruthy
          · cases h6 : asString nameY with
            | error e =>
              simpa [processRecord, h1, h2, h3, h4, h5, h6, stepMap] using h
            | ok name =>
              cases h7 : itemsOf github with
              | error e =>
                simpa [processRecord, h1, h2, h3, h4, h5, h6, h7, stepMap] using h
              | ok items =>
                have hfi := foldItems_rmSub name items rm h
                cases hf : foldItems name items rm with
                | mk rm2 oe =>
                  rw [hf] at hfi
                  cases oe with
                  | none =>
                    simpa [processRecord, h1, h2, h3, h4, h5, h6, h7, hf, stepMap] using hfi
                  | some e =>
                    simpa [processRecord, h1, h2, h3, h4, h5, h6, h7, hf, stepMap] using hfi
          · simpa [processRecord, h1, h2, h3, h4, h5, stepMap] using h

/-- The whole `parse()` loop preserves the invariant. -/
theorem parseFold_rmSub (time : String) (sources : List Yaml) (rm : RepoMap)
    (ts : List ZuulTenant) (h : rmSub rm) :
    rmSub (outRepoMap (parseFold time sources rm ts)) := by
  induction sources generalizing rm ts with
  | nil => simpa [parseFold, outRepoMap] using h
  | cons r rest ih =>
    have hp := processRecord_rmSub time rm r h
    simp only [parseFold]
    cases hr : processRecord time rm r with
    | halt => simpa [outRepoMap] using h
    | err rm2 e =>
      rw [hr] at hp
      simpa [outRepoMap] using hp
    | next rm2 t =>
      rw [hr] at hp
      exact ih rm2 (ts ++ [t]) hp

/-- Claim C9: every update of the repo map keeps, in every entry, the
`jobs` sequence a subsequence of the `roles` sequence — so any entry
reachable from a `parse()` run satisfies it, every name occurs in `roles`
at least as often as in `jobs`, and `roles` is never shorter than
`jobs`. -/
theorem c9_theorem (time : String) (sources : List Yaml) (k : Yaml)
    (ent : RepoTenantEntry)
    (h : lookupRepo (outRepoMap (parseFold time sources [] [])) k = some ent) :
    List.Sublist ent.jobs ent.roles ∧ (∀ s : String, ent.jobs.count s ≤ ent.roles.count s) ∧
      ent.jobs.length ≤ ent.roles.length := by
  have hsub : rmSub (outRepoMap (parseFold time sources [] [])) :=
    parseFold_rmSub time sources [] [] (by intro p hp; simp at hp)
  obtain ⟨k0, hm⟩ := lookupRepo_mem _ _ _ h
  have hs := hsub (k0, ent) hm
  exact ⟨hs, fun s => hs.count_le s, hs.length_le⟩

/-- Claim C9, witness: the invariant at the concrete entry produced by one
tenant referencing one repository. -/
theorem c9_witness :
    lookupRepo (outRepoMap (parseFold "T" [sampleRecord "t1" [Yaml.str "repo-a"]] [] []))
      (Yaml.str "repo-a") = some ⟨["t1"], ["t1"]⟩ ∧
    List.Sublist (["t1"] : List String) ["t1"] := by
  have h := c9_theorem "T" [sampleRecord "t1" [Yaml.str "repo-a"]] (Yaml.str "repo-a")
    ⟨["t1"], ["t1"]⟩ rfl
  exact ⟨rfl, h.1⟩

/-- Every string stored in a `jobs` or `roles` sequence of the map
satisfies `P`. -/
def rmNames (P : String → Prop) (rm : RepoMap) : Prop :=
  ∀ p ∈ rm, ∀ s : String, (s ∈ p.2.jobs ∨ s ∈ p.2.roles) → P s

/-- `rmNames` is monotone in the predicate. -/
theorem rmNames_mono (P Q : String → Prop) (rm : RepoMap)
    (hPQ : ∀ s, P s → Q s) (h : rmNames P rm) : rmNames Q rm :=
  fun p hp s hs => hPQ s (h p hp s hs)

/-- `setdefault` neither adds strings to the map nor hands out new ones. -/
theorem setdefaultGet_rmNames (P : String → Prop) (rm : RepoMap) (k : Yaml)
    (h : rmNames P rm) :
    rmNames P (setdefaultGet rm k).1 ∧
      (∀ s : String,
        (s ∈ (setdefaultGet rm k).2.jobs ∨ s ∈ (setdefaultGet rm k).2.roles) → P s) := by
  induction rm with
  | nil =>
    refine ⟨?_, by simp [setdefaultGet]⟩
    intro p hp s hs
    simp [setdefaultGet] at hp
    rw [hp] at hs
    simp at hs
  | cons q rest ih =>
    obtain ⟨k0, e0⟩ := q
    have h0 : ∀ s : String, (s ∈ e0.jobs ∨ s ∈ e0.roles) → P s :=
      fun s hs => h (k0, e0) (List.mem_cons_self _ _) s hs
    have hrest : rmNames P rest := fun p hp => h p (List.mem_cons_of_mem _ hp)
    by_cases hb : Yaml.beq k0 k = true
    · exact ⟨by simpa [setdefaultGet, hb] using h, by simpa [setdefaultGet, hb] using h0⟩
    · obtain ⟨ih1, ih2⟩ := ih hrest
      refine ⟨?_, by simpa [setdefaultGet, hb] using ih2⟩
      intro p hp
      simp only [setdefaultGet, hb, Bool.false_eq_true, if_false, List.mem_cons] at hp
      rcases hp with hp | hp
      · intro s hs
        rw [hp] at hs
        exact h0 s hs
      · exact ih1 p hp

/-- Writing back an entry whose strings satisfy `P` keeps `rmNames P`. -/
theorem writeEntry_rmNames (P : String → Prop) (rm : RepoMap) (k : Yaml)
    (ent : RepoTenantEntry) (h : rmNames P rm)
    (hent : ∀ s : String, (s ∈ ent.jobs ∨ s ∈ ent.roles) → P s) :
    rmNames P (writeEntry rm k ent) := by
  induction rm with
  | nil => simpa [writeEntry] using h
  | cons q rest ih =>
    obtain ⟨k0, e0⟩ := q
    have h0 : ∀ s : String, (s ∈ e0.jobs ∨ s ∈ e0.roles) → P s :=
      fun s hs => h (k0, e0) (List.mem_cons_self _ _) s hs
    have hrest : rmNames P rest := fun p hp => h p (List.mem_cons_of_mem _ hp)
    intro p hp
    by_cases hb : Yaml.beq k0 k = true
    · simp only [writeEntry, hb, if_true, List.mem_cons] at hp
      rcases hp with hp | hp
      · intro s hs
        rw [hp] at hs
        exact hent s hs
      · exact hrest p hp
    · simp only [writeEntry, hb, Bool.false_eq_true, if_false, List.mem_cons] at hp
      rcases hp with hp | hp
      · intro s hs
        rw [hp] at hs
        exact h0 s hs
      · exact ih hrest p hp

/-- `_update_repo_map` adds no string other than the tenant it was
passed. -/
theorem update_repo_map_rmNames (P : String → Prop) (rm : RepoMap) (project : Yaml)
    (t : String) (h : rmNames P rm) (ht : P t) :
    rmNames P (update_repo_map rm project t).1 := by
  cases hex : extract_project project with
  | error e => simpa [update_repo_map, hex] using h
  | ok kv =>
    obtain ⟨pname, excl⟩ := kv
    obtain ⟨hsd1, hsd2⟩ := setdefaultGet_rmNames P rm pname h
    cases hni : pyNotIn "jobs" excl with
    | error e => simpa [update_repo_map, hex, hni] using hsd1
    | ok b =>
      simp only [update_repo_map, hex, hni]
      refine writeEntry_rmNames P _ _ _ hsd1 ?_
      intro s hs
      rcases hs with hs | hs
      · simp only [List.mem_append] at hs
        rcases hs with hs | hs
        · exact hsd2 s (Or.inl hs)
        · cases b with
          | true =>
            simp at hs
            rw [hs]
            exact ht
          | false => simp at hs
      · simp only [List.mem_append, List.mem_singleton] at hs
        rcases hs with hs | hs
        · exact hsd2 s (Or.inr hs)
        · rw [hs]
          exact ht

/-- The inner project loop adds no string other than the tenant. -/
theorem foldProjects_rmNames (P : String → Prop) (t : String) (ps : List Yaml)
    (rm : RepoMap) (h : rmNames P rm) (ht : P t) :
    rmNames P (foldProjects t ps rm).1 := by
  induction ps generalizing rm with
  | nil => simpa [foldProjects] using h
  | cons p rest ih =>
    have hup := update_repo_map_rmNames P rm p t h ht
    cases hu : update_repo_map rm p t with
    | mk rm2 oe =>
      rw [hu] at hup
      cases oe with
      | none => simpa [foldProjects, hu] using ih rm2 hup
      | some e => simpa [foldProjects, hu] using hup

/-- The outer item loop adds no string other than the tenant. -/
theorem foldItems_rmNames (P : String → Prop) (t : String)
    (items : List (String × Yaml)) (rm : RepoMap) (h : rmNames P rm) (ht : P t) :
    rmNames P (foldItems t items rm).1 := by
  induction items generalizing rm with
  | nil => simpa [foldItems] using h
  | cons it rest ih =>
    obtain ⟨ptype, projects⟩ := it
    cases hi : iterOf projects with
    | error e => simpa [foldItems, hi] using h
    | ok ps =>
      have hfp := foldProjects_rmNames P t ps rm h ht
      cases hf : foldProjects t ps rm with
      | mk rm2 oe =>
        rw [hf] at hfp
        cases oe with
        | none => simpa [foldItems, hi, hf] using ih rm2 hfp
        | some e => simpa [foldItems, hi, hf] using hfp

/-- When a record is processed successfully, the strings the map gained all
equal the `tenant_name` of the produced tenant. -/
theorem processRecord_rmNames (time : String) (rm : RepoMap) (r : Yaml)
    (P : String → Prop) (h : rmNames P rm) :
    ∀ rm2 tnt, processRecord time rm r = .next rm2 tnt →
      rmNames (fun s => P s ∨ s = tnt.tenant_name) rm2 := by
  intro rm2 tnt hEq
  cases h1 : getItem r "tenant" with
  | error e => simp [processRecord, h1] at hEq
  | ok tdict =>
    cases h2 : getItem tdict "source" with
    | error e => simp [processRecord, h1, h2] at hEq
    | ok source =>
      cases h3 : getItem tdict "name" with
      | error e => simp [processRecord, h1, h2, h3] at hEq
      | ok nameY =>
        cases h4 : dictGet source "github" with
        | error e => simp [processRecord, h1, h2, h3, h4] at hEq
        | ok github =>
          by_cases h5 : github.isTruthy
          · cases h6 : asString nameY with
            | error e => simp [processRecord, h1, h2, h3, h4, h5, h6] at hEq
            | ok name =>
              cases h7 : itemsOf github with
              | error e => simp [processRecord, h1, h2, h3, h4, h5, h6, h7] at hEq
              | ok items =>
                cases hf : foldItems name items rm with
                | mk rm2f oe =>
                  cases oe with
                  | some e =>
                    simp [processRecord, h1, h2, h3, h4, h5, h6, h7, hf] at hEq
                  | none =>
                    have hfi := foldItems_rmNames
                      (fun s => P s ∨ s = name) name items rm
                      (rmNames_mono P _ rm (fun s hs => Or.inl hs) h) (Or.inr rfl)
                    rw [hf] at hfi
                    simp only [processRecord, h1, h2, h3, h4, h5, h6, h7, hf,
                      if_true] at hEq
                    obtain ⟨hrm, htnt⟩ := StepResult.next.inj hEq
                    rw [← hrm, ← htnt]
                    exact hfi
          · simp [processRecord, h1, h2, h3, h4, h5] at hEq

/-- The `parse()` loop keeps every map string the name of an accumulated
tenant, under both normal and `break` termination. -/
theorem parseFold_rmNames (time : String) (sources : List Yaml) (rm : RepoMap)
    (ts : List ZuulTenant)
    (h : rmNames (fun s => ∃ tz ∈ ts, tz.tenant_name = s) rm) :
    (∀ rmO tsO, parseFold time sources rm ts = .done rmO tsO →
       rmNames (fun s => ∃ tz ∈ tsO, tz.tenant_name = s) rmO) ∧
    (∀ rmO tsO, parseFold time sources rm ts = .halted rmO tsO →
       rmNames (fun s => ∃ tz ∈ tsO, tz.tenant_name = s) rmO) := by
  induction sources generalizing rm ts with
  | nil =>
    constructor
    · intro rmO tsO hEq
      simp only [parseFold] at hEq
      obtain ⟨h1, h2⟩ := ParseOutcome.done.inj hEq
      rw [← h1, ← h2]
      exact h
    · intro rmO tsO hEq
      simp [parseFold] at hEq
  | cons r rest ih =>
    cases hp : processRecord time rm r with
    | halt =>
      constructor
      · intro rmO tsO hEq
        simp [parseFold, hp] at hEq
      · intro rmO tsO hEq
        simp only [parseFold, hp] at hEq
        obtain ⟨h1, h2⟩ := ParseOutcome.halted.inj hEq
        rw [← h1, ← h2]
        exact h
    | err rm2 e =>
      constructor
      · intro rmO tsO hEq
        simp [parseFold, hp] at hEq
      · intro rmO tsO hEq
        simp [parseFold, hp] at hEq
    | next rm2 tnt =>
      have h2 : rmNames (fun s => ∃ tz ∈ ts ++ [tnt], tz.tenant_name = s) rm2 := by
        refine rmNames_mono _ _ _ ?_ (processRecord_rmNames time rm r _ h rm2 tnt hp)
        intro s hs
        rcases hs with ⟨tz, htz, hn⟩ | hs
        · exact ⟨tz, List.mem_append_left _ htz, hn⟩
        · exact ⟨tnt, List.mem_append_right _ (List.mem_singleton.mpr rfl), hs.symm⟩
      constructor
      · intro rmO tsO hEq
        simp only [parseFold, hp] at hEq
        exact (ih rm2 (ts ++ [tnt]) h2).1 rmO tsO hEq
      · intro rmO tsO hEq
        simp only [parseFold, hp] at hEq
        exact (ih rm2 (ts ++ [tnt]) h2).2 rmO tsO hEq

/-- Claim C2, amended: the elements appended to a repository entry's
`jobs` and `roles` sequences are the tenant *names* (strings): whenever
`parse()` returns, every string in every entry equals the `tenant_name`
carried by some `ZuulTenant` of the returned tenant list — the map stores
that name, not the Tenant record itself. -/
theorem c2_amended_theorem (time : String) (sources : List Yaml) (rm : RepoMap)
    (ts : List ZuulTenant) (h : tenant_parse time sources = .ok (rm, ts))
    (k : Yaml) (ent : RepoTenantEntry) (hk : lookupRepo rm k = some ent)
    (s : String) (hs : s ∈ ent.jobs ∨ s ∈ ent.roles) :
    ∃ tz ∈ ts, tz.tenant_name = s := by
  have hstart : rmNames (fun s0 => ∃ tz ∈ ([] : List ZuulTenant),
      tz.tenant_name = s0) ([] : RepoMap) := by
    intro p hp
    simp at hp
  unfold tenant_parse at h
  cases hp : parseFold time sources [] [] with
  | done rmO tsO =>
    rw [hp] at h
    simp only [Except.ok.injEq] at h
    obtain ⟨h1, h2⟩ := Prod.mk.inj h
    have hn := (parseFold_rmNames time sources [] [] hstart).1 rmO tsO hp
    rw [h1] at hn
    obtain ⟨k0, hm⟩ := lookupRepo_mem rm k ent hk
    have := hn (k0, ent) hm s hs
    rw [← h2]
    exact this
  | halted rmO tsO =>
    rw [hp] at h
    simp only [Except.ok.injEq] at h
    obtain ⟨h1, h2⟩ := Prod.mk.inj h
    have hn := (parseFold_rmNames time sources [] [] hstart).2 rmO tsO hp
    rw [h1] at hn
    obtain ⟨k0, hm⟩ := lookupRepo_mem rm k ent hk
    have := hn (k0, ent) hm s hs
    rw [← h2]
    exact this
  | raised rmO tsO e =>
    rw [hp] at h
    simp at h

/-- Claim C2, witness: in a one-record run the only map string is the
tenant name of the single returned tenant. -/
theorem c2_witness :
    tenant_parse "T" [sampleRecord "t1" [Yaml.str "repo-a"]] =
      .ok ([(Yaml.str "repo-a", ⟨["t1"], ["t1"]⟩)], [⟨sha1Hex "t1", "t1", "T"⟩]) ∧
    ∃ tz ∈ [(⟨sha1Hex "t1", "t1", "T"⟩ : ZuulTenant)], tz.tenant_name = "t1" :=
  ⟨rfl,
   c2_amended_theorem "T" [sampleRecord "t1" [Yaml.str "repo-a"]]
     [(Yaml.str "repo-a", ⟨["t1"], ["t1"]⟩)] [⟨sha1Hex "t1", "t1", "T"⟩] rfl
     (Yaml.str "repo-a") ⟨["t1"], ["t1"]⟩ rfl "t1" (Or.inl (by simp))⟩

end TenantSources
